import Mathlib

/-!
Shallow embedding of the task persistence and update engine of the
`task_manager` package (`models.py`, `storage.py`, `manager.py`).

Conventions of the embedding:
* the durable store is modelled by its contents, a `List Task`; every
  manager operation takes the loaded collection and returns the collection
  that gets saved (Python's load-modify-save cycle);
* Python `ValueError`s become `Except TaskError`; each distinct error
  message of the source is one constructor, carrying the data interpolated
  into the message;
* the impure `current_timestamp()` becomes an explicit `now : String`
  argument;
* Python strings are compared by code points, which is exactly Lean's
  `List Char` lexicographic comparison on `String.data`; we define the
  boolean comparison by structural recursion so it evaluates.
-/

namespace TaskManager


/-- Representation of a single task item (`models.Task`). -/
structure Task where
  id : Int
  title : String
  description : String
  due_date : Option String
  priority : String
  completed : Bool
  created_at : String
  updated_at : String
deriving DecidableEq, Repr

/-- One stored JSON record of a task: `id` and `title` are required by
`Task.from_dict` (constructor arguments without defaults), every other key
may be absent (`none`). `Task.to_dict` (Python `asdict`) always emits all
eight keys. -/
structure TaskRecord where
  id : Int
  title : String
  description : Option String
  due_date : Option (Option String)
  priority : Option String
  completed : Option Bool
  created_at : Option String
  updated_at : Option String
deriving DecidableEq, Repr

/-- The `ValueError`s raised by `TaskManager`, one constructor per distinct
message: invalid priority (the message lists the allowed values), invalid
due date format, and unknown task id (the message names the id). -/
inductive TaskError where
  | invalidPriority (allowed : List String)
  | invalidDueDate
  | notFound (id : Int)
deriving DecidableEq, Repr

/-- `models.Task.to_dict`: `asdict(self)`, all eight keys present. -/
def Task.to_dict (t : Task) : TaskRecord :=
  ⟨t.id, t.title, some t.description, some t.due_date, some t.priority,
   some t.completed, some t.created_at, some t.updated_at⟩

/-- `models.Task.from_dict`: `{**defaults, **data}` — each absent key falls
back to its default; the timestamp defaults call `current_timestamp()`,
here the explicit `now`. -/
def Task.from_dict (r : TaskRecord) (now : String) : Task :=
  ⟨r.id, r.title, r.description.getD "", r.due_date.getD none,
   r.priority.getD "normal", r.completed.getD false,
   r.created_at.getD now, r.updated_at.getD now⟩

/-- `models.Task.apply_updates`: each `if x is not None: self.x = x`
guard, then `self.updated_at = current_timestamp()`. Note the `due_date`
parameter here is a plain optional (as in Python): `some d` sets the field
to `some d`, `none` leaves it alone — the field can never be set to `none`
through this method. -/
def Task.apply_updates (t : Task) (title description : Option String)
    (due_date : Option String) (priority : Option String)
    (completed : Option Bool) (now : String) : Task :=
  ⟨t.id,
   title.getD t.title,
   description.getD t.description,
   (match due_date with
    | none => t.due_date
    | some d => some d),
   priority.getD t.priority,
   completed.getD t.completed,
   t.created_at,
   now⟩

/-- `storage.TaskStorage.save_tasks`: serialise every task, in order. -/
def save_tasks (tasks : List Task) : List TaskRecord :=
  tasks.map Task.to_dict

/-- `storage.TaskStorage.load_tasks` on an existing well-formed file:
deserialise every record, in order. -/
def load_tasks (raw : List TaskRecord) (now : String) : List Task :=
  raw.map (fun r => Task.from_dict r now)

/-- `TaskManager.PRIORITY_LEVELS`. -/
def PRIORITY_LEVELS : List String := ["low", "normal", "high"]

/-- `TaskManager._validate_priority`. -/
def validate_priority (priority : String) : Except TaskError String :=
  if priority ∈ PRIORITY_LEVELS then Except.ok priority
  else Except.error (TaskError.invalidPriority PRIORITY_LEVELS)

/-- Python's `max(ids, default=d)`: the maximum of the list when nonempty,
otherwise the default. -/
def pythonMax (l : List Int) (d : Int) : Int :=
  match l with
  | [] => d
  | x :: xs => xs.foldl max x

/-- Code-point comparison of character lists: Python's `<` on strings. -/
def charListLt (a b : List Char) : Bool :=
  match a, b with
  | [], [] => false
  | [], _ :: _ => true
  | _ :: _, [] => false
  | c :: cs, d :: ds =>
      decide (c.toNat < d.toNat) || (c == d && charListLt cs ds)

/-- Python's `s1 < s2` on strings (code-point lexicographic order). -/
def strLt (s t : String) : Bool := charListLt s.data t.data

/-- Split a character list on the literal `'-'` (the separators of the
`%Y-%m-%d` pattern). -/
def splitDash (cs : List Char) : List (List Char) :=
  match cs with
  | [] => [[]]
  | c :: rest =>
    if c = '-' then [] :: splitDash rest
    else
      match splitDash rest with
      | [] => [[c]]
      | g :: gs => (c :: g) :: gs

/-- Numeric value of a digit string, `int("0012") = 12`. -/
def digitsVal (cs : List Char) : Nat :=
  cs.foldl (fun acc c => acc * 10 + (c.toNat - 48)) 0

/-- Gregorian leap-year rule used by `datetime`. -/
def isLeap (y : Nat) : Bool :=
  (y % 4 == 0 && y % 100 != 0) || (y % 400 == 0)

/-- Length of a month as `datetime` validates it. -/
def daysInMonth (y m : Nat) : Nat :=
  if m = 2 then (if isLeap y then 29 else 28)
  else if m = 4 ∨ m = 6 ∨ m = 9 ∨ m = 11 then 30
  else 31

/-- The decimal digit character for `n % 10`. -/
def digitChar (n : Nat) : Char := Char.ofNat (48 + n % 10)

/-- `date(y, m, d).isoformat()`: zero-padded `YYYY-MM-DD`. -/
def isoDate (y m d : Nat) : String :=
  String.mk [digitChar (y / 1000), digitChar (y / 100), digitChar (y / 10),
    digitChar y, '-', digitChar (m / 10), digitChar m, '-',
    digitChar (d / 10), digitChar d]

/-- `datetime.strptime(s, "%Y-%m-%d").date().isoformat()`, returning
`none` where `strptime` raises: CPython's `_strptime` matches `%Y` with
`\d\d\d\d` (exactly four year digits — smaller years must be zero-padded),
`%m` and `%d` with one or two digits, separated by literal dashes, and the
`datetime` constructor then requires a valid calendar date with year at
least 1 (`datetime.MINYEAR`). -/
def parseDate (s : String) : Option String :=
  match splitDash s.data with
  | [ys, ms, ds] =>
    if ys.all Char.isDigit && ys.length == 4
        && ms.all Char.isDigit && !ms.isEmpty && ms.length ≤ 2
        && ds.all Char.isDigit && !ds.isEmpty && ds.length ≤ 2 then
      let y := digitsVal ys
      let m := digitsVal ms
      let d := digitsVal ds
      if 1 ≤ y && 1 ≤ m && m ≤ 12 && 1 ≤ d && d ≤ daysInMonth y m then
        some (isoDate y m d)
      else none
    else none
  | _ => none

/-- `TaskManager._normalise_due_date`: `None` and `""` both normalise to
`None`; anything else must parse as `%Y-%m-%d` and is re-emitted in
canonical ISO form. -/
def normalise_due_date (due_date : Option String) :
    Except TaskError (Option String) :=
  match due_date with
  | none => Except.ok none
  | some s =>
    if s = "" then Except.ok none
    else
      match parseDate s with
      | some iso => Except.ok (some iso)
      | none => Except.error TaskError.invalidDueDate

/-- `TaskManager.add_task`: normalise the due date, validate the priority,
assign `max(ids, default=0) + 1`, append, save. -/
def add_task (tasks : List Task) (title description : String)
    (due_date : Option String) (priority : String) (now : String) :
    Except TaskError (Task × List Task) :=
  match normalise_due_date due_date with
  | Except.error e => Except.error e
  | Except.ok due =>
    match validate_priority priority with
    | Except.error e => Except.error e
    | Except.ok priority_value =>
      let next_id := pythonMax (tasks.map Task.id) 0 + 1
      let new_task : Task :=
        ⟨next_id, title, description, due, priority_value, false, now, now⟩
      Except.ok (new_task, tasks ++ [new_task])

/-- The sentinel-completed due-date sort component: Python's
`task.due_date or "9999-12-31"` (both `None` and `""` are falsy). -/
def dueKey (t : Task) : String :=
  match t.due_date with
  | none => "9999-12-31"
  | some s => if s = "" then "9999-12-31" else s

/-- Python's `<=` on the sort key tuple
`(task.completed, task.due_date or "9999-12-31", task.id)`:
lexicographic, with `False < True` on booleans and code-point order on
strings. -/
def keyLE (a b : Task) : Bool :=
  (!a.completed && b.completed)
  || (a.completed == b.completed
      && (strLt (dueKey a) (dueKey b)
          || (dueKey a == dueKey b && decide (a.id ≤ b.id))))

/-- The filtering step of `TaskManager.list_tasks`. -/
def filter_status (tasks : List Task) (status : Option String) : List Task :=
  if status = some "pending" then tasks.filter (fun t => !t.completed)
  else if status = some "completed" then tasks.filter (fun t => t.completed)
  else tasks

/-- `TaskManager.list_tasks`: filter by status, then `sorted` (a stable
sort) by the composite key. -/
def list_tasks (tasks : List Task) (status : Option String) : List Task :=
  (filter_status tasks status).mergeSort keyLE

/-- `TaskManager._find_task`: first task with the given id, else a
not-found error naming the id. -/
def find_task (task_id : Int) (tasks : List Task) : Except TaskError Task :=
  match tasks with
  | [] => Except.error (TaskError.notFound task_id)
  | t :: rest => if t.id = task_id then Except.ok t else find_task task_id rest

/-- In-place mutation of the found task within the loaded list: the first
task with the given id is replaced by the updated instance. -/
def replace_first (tasks : List Task) (task_id : Int) (t' : Task) :
    List Task :=
  match tasks with
  | [] => []
  | t :: rest =>
    if t.id = task_id then t' :: rest
    else t :: replace_first rest task_id t'

/-- `tasks.remove(task)` where `task` is the first list element with the
given id: drop that element. -/
def remove_first (tasks : List Task) (task_id : Int) : List Task :=
  match tasks with
  | [] => []
  | t :: rest =>
    if t.id = task_id then rest else t :: remove_first rest task_id

/-- `TaskManager.update_task`: find the task (not-found error if absent),
validate a supplied priority, normalise a supplied due date, apply the
updates in place, save. -/
def update_task (tasks : List Task) (task_id : Int)
    (title description : Option String) (due_date : Option String)
    (priority : Option String) (completed : Option Bool) (now : String) :
    Except TaskError (Task × List Task) :=
  match find_task task_id tasks with
  | Except.error e => Except.error e
  | Except.ok task =>
    match (match priority with
           | none => Except.ok (none : Option String)
           | some p =>
             match validate_priority p with
             | Except.error e => Except.error e
             | Except.ok v => Except.ok (some v)) with
    | Except.error e => Except.error e
    | Except.ok priority' =>
      match (match due_date with
             | none => Except.ok (none : Option String)
             | some d => normalise_due_date (some d)) with
      | Except.error e => Except.error e
      | Except.ok due' =>
        let task' :=
          task.apply_updates title description due' priority' completed now
        Except.ok (task', replace_first tasks task_id task')

/-- `TaskManager.complete_task`: sugar for an update of `completed` only. -/
def complete_task (tasks : List Task) (task_id : Int) (completed : Bool)
    (now : String) : Except TaskError (Task × List Task) :=
  update_task tasks task_id none none none none (some completed) now

/-- `TaskManager.delete_task`: find the task (not-found error if absent),
remove it, save. -/
def delete_task (tasks : List Task) (task_id : Int) :
    Except TaskError (List Task) :=
  match find_task task_id tasks with
  | Except.error e => Except.error e
  | Except.ok _ => Except.ok (remove_first tasks task_id)

/-- Exception semantics over the durable store for `add_task`: a raised
error propagates before `_save`, leaving the stored collection as loaded. -/
def run_add (tasks : List Task) (title description : String)
    (due_date : Option String) (priority now : String) :
    List Task × Except TaskError Task :=
  match add_task tasks title description due_date priority now with
  | Except.ok (t, tasks') => (tasks', Except.ok t)
  | Except.error e => (tasks, Except.error e)

/-- Exception semantics over the durable store for `update_task`. -/
def run_update (tasks : List Task) (task_id : Int)
    (title description : Option String) (due_date : Option String)
    (priority : Option String) (completed : Option Bool) (now : String) :
    List Task × Except TaskError Task :=
  match update_task tasks task_id title description due_date priority
      completed now with
  | Except.ok (t, tasks') => (tasks', Except.ok t)
  | Except.error e => (tasks, Except.error e)

/-- Exception semantics over the durable store for `complete_task`. -/
def run_complete (tasks : List Task) (task_id : Int) (completed : Bool)
    (now : String) : List Task × Except TaskError Task :=
  match complete_task tasks task_id completed now with
  | Except.ok (t, tasks') => (tasks', Except.ok t)
  | Except.error e => (tasks, Except.error e)

/-- Exception semantics over the durable store for `delete_task`. -/
def run_delete (tasks : List Task) (task_id : Int) :
    List Task × Except TaskError Unit :=
  match delete_task tasks task_id with
  | Except.ok tasks' => (tasks', Except.ok ())
  | Except.error e => (tasks, Except.error e)

/-- `list_tasks` only loads and never calls `_save`: the durable store
after a list operation, paired with the returned listing. -/
def run_list (tasks : List Task) (status : Option String) :
    List Task × List Task :=
  (tasks, list_tasks tasks status)

/-- The stores reachable from an empty store by the mutating manager
operations (each succeeding call saves its resulting collection). -/
inductive Reach : List Task → Prop where
  | empty : Reach []
  | add {s : List Task} {title description : String}
      {due_date : Option String} {priority now : String} {t : Task}
      {s' : List Task} : Reach s →
      add_task s title description due_date priority now = Except.ok (t, s') →
      Reach s'
  | update {s : List Task} {task_id : Int} {title description : Option String}
      {due_date : Option String} {priority : Option String}
      {completed : Option Bool} {now : String} {t : Task} {s' : List Task} :
      Reach s →
      update_task s task_id title description due_date priority completed now
        = Except.ok (t, s') →
      Reach s'
  | complete {s : List Task} {task_id : Int} {completed : Bool} {now : String}
      {t : Task} {s' : List Task} : Reach s →
      complete_task s task_id completed now = Except.ok (t, s') →
      Reach s'
  | delete {s : List Task} {task_id : Int} {s' : List Task} : Reach s →
      delete_task s task_id = Except.ok s' →
      Reach s'

/-- `add_task` applied `n` times to the empty store, with fixed valid
arguments. -/
def addN : Nat → List Task
  | 0 => []
  | n + 1 =>
    match add_task (addN n) "task" "" none "normal" "ts" with
    | Except.ok (_, s') => s'
    | Except.error _ => addN n

/-! ### Facts about `find_task`, `replace_first`, `remove_first` -/

theorem find_task_ok_id {task_id : Int} {tasks : List Task} {t : Task}
    (h : find_task task_id tasks = Except.ok t) : t.id = task_id := by
  induction tasks with
  | nil => simp [find_task] at h
  | cons x xs ih =>
    by_cases hx : x.id = task_id
    · simp [find_task, hx] at h
      subst h
      exact hx
    · simp [find_task, hx] at h
      exact ih h

theorem find_task_ok_mem {task_id : Int} {tasks : List Task} {t : Task}
    (h : find_task task_id tasks = Except.ok t) : t ∈ tasks := by
  induction tasks with
  | nil => simp [find_task] at h
  | cons x xs ih =>
    by_cases hx : x.id = task_id
    · simp [find_task, hx] at h
      subst h
      exact List.mem_cons_self x xs
    · simp [find_task, hx] at h
      exact List.mem_cons_of_mem x (ih h)

theorem find_task_not_found {task_id : Int} {tasks : List Task}
    (h : ∀ t ∈ tasks, t.id ≠ task_id) :
    find_task task_id tasks = Except.error (TaskError.notFound task_id) := by
  induction tasks with
  | nil => rfl
  | cons x xs ih =>
    have hx := h x (List.mem_cons_self x xs)
    simp only [find_task, hx, if_false]
    exact ih (fun t ht => h t (List.mem_cons_of_mem x ht))

theorem find_task_of_mem {task_id : Int} {tasks : List Task}
    (h : ∃ t ∈ tasks, t.id = task_id) :
    ∃ t₀, find_task task_id tasks = Except.ok t₀ := by
  induction tasks with
  | nil => simp at h
  | cons x xs ih =>
    by_cases hx : x.id = task_id
    · exact ⟨x, by simp [find_task, hx]⟩
    · obtain ⟨t, ht, hid⟩ := h
      rcases List.mem_cons.mp ht with rfl | hmem
      · exact absurd hid hx
      · obtain ⟨t₀, h₀⟩ := ih ⟨t, hmem, hid⟩
        exact ⟨t₀, by simp [find_task, hx, h₀]⟩

theorem replace_first_map_id {tasks : List Task} {task_id : Int} {t' : Task}
    (h : t'.id = task_id) :
    (replace_first tasks task_id t').map Task.id = tasks.map Task.id := by
  induction tasks with
  | nil => rfl
  | cons x xs ih =>
    by_cases hx : x.id = task_id
    · simp [replace_first, hx, h]
    · simp [replace_first, hx, ih]

theorem remove_first_sublist (tasks : List Task) (task_id : Int) :
    (remove_first tasks task_id).Sublist tasks := by
  induction tasks with
  | nil => simp [remove_first]
  | cons x xs ih =>
    by_cases hx : x.id = task_id
    · simp only [remove_first, hx, if_true]
      exact List.sublist_cons_self x xs
    · simp only [remove_first, hx, if_false]
      exact List.Sublist.cons₂ x ih

theorem remove_first_decomp {tasks : List Task} {task_id : Int}
    (h : ∃ t ∈ tasks, t.id = task_id) :
    ∃ l t r, tasks = l ++ t :: r ∧ t.id = task_id
      ∧ (∀ u ∈ l, u.id ≠ task_id)
      ∧ remove_first tasks task_id = l ++ r := by
  induction tasks with
  | nil => simp at h
  | cons x xs ih =>
    by_cases hx : x.id = task_id
    · exact ⟨[], x, xs, by simp, hx, by simp, by simp [remove_first, hx]⟩
    · have hxs : ∃ t ∈ xs, t.id = task_id := by
        obtain ⟨t, ht, hid⟩ := h
        rcases List.mem_cons.mp ht with rfl | hmem
        · exact absurd hid hx
        · exact ⟨t, hmem, hid⟩
      obtain ⟨l, t, r, h1, h2, h3, h4⟩ := ih hxs
      refine ⟨x :: l, t, r, by simp [h1], h2, ?_, by simp [remove_first, hx, h4]⟩
      intro u hu
      rcases List.mem_cons.mp hu with rfl | hm
      · exact hx
      · exact h3 u hm

/-! ### Facts about `pythonMax` -/

theorem le_foldl_max (xs : List Int) (init : Int) : init ≤ xs.foldl max init := by
  induction xs generalizing init with
  | nil => exact le_refl _
  | cons x xs ih => exact le_trans (le_max_left init x) (ih (max init x))

theorem mem_le_foldl_max {a : Int} {xs : List Int} (init : Int) (h : a ∈ xs) :
    a ≤ xs.foldl max init := by
  induction xs generalizing init with
  | nil => cases h
  | cons x xs ih =>
    rcases List.mem_cons.mp h with rfl | hmem
    · exact le_trans (le_max_right init a) (le_foldl_max xs (max init a))
    · exact ih (max init x) hmem

theorem mem_le_pythonMax {a : Int} {l : List Int} (d : Int) (h : a ∈ l) :
    a ≤ pythonMax l d := by
  cases l with
  | nil => cases h
  | cons x xs =>
    rcases List.mem_cons.mp h with rfl | hmem
    · exact le_foldl_max xs a
    · exact mem_le_foldl_max x hmem

/-! ### Shapes of successful operations -/

theorem add_task_ok {tasks : List Task} {title description : String}
    {due_date : Option String} {priority now : String} {t : Task}
    {s' : List Task}
    (h : add_task tasks title description due_date priority now
      = Except.ok (t, s')) :
    t.id = pythonMax (tasks.map Task.id) 0 + 1 ∧ s' = tasks ++ [t] := by
  cases hdue : normalise_due_date due_date with
  | error e => simp [add_task, hdue] at h
  | ok due =>
    cases hpr : validate_priority priority with
    | error e => simp [add_task, hdue, hpr] at h
    | ok pv =>
      simp only [add_task, hdue, hpr, Except.ok.injEq, Prod.mk.injEq] at h
      obtain ⟨h1, h2⟩ := h
      subst h1
      subst h2
      exact ⟨rfl, rfl⟩

theorem update_task_ok {tasks : List Task} {task_id : Int}
    {title description : Option String} {due_date : Option String}
    {priority : Option String} {completed : Option Bool} {now : String}
    {t' : Task} {s' : List Task}
    (h : update_task tasks task_id title description due_date priority
      completed now = Except.ok (t', s')) :
    ∃ t₀ priority' due',
      find_task task_id tasks = Except.ok t₀
      ∧ (priority = none → priority' = none)
      ∧ (due_date = none → due' = none)
      ∧ t' = t₀.apply_updates title description due' priority' completed now
      ∧ s' = replace_first tasks task_id t' := by
  cases hf : find_task task_id tasks with
  | error e => simp [update_task, hf] at h
  | ok t₀ =>
    cases priority with
    | none =>
      cases due_date with
      | none =>
        simp only [update_task, hf, Except.ok.injEq, Prod.mk.injEq] at h
        obtain ⟨h1, h2⟩ := h
        subst h1
        subst h2
        exact ⟨t₀, none, none, rfl, fun _ => rfl, fun _ => rfl, rfl, rfl⟩
      | some d =>
        cases hd : normalise_due_date (some d) with
        | error e => simp [update_task, hf, hd] at h
        | ok due' =>
          simp only [update_task, hf, hd, Except.ok.injEq, Prod.mk.injEq] at h
          obtain ⟨h1, h2⟩ := h
          subst h1
          subst h2
          exact ⟨t₀, none, due', rfl, fun _ => rfl,
            fun hh => Option.noConfusion hh, rfl, rfl⟩
    | some p =>
      cases hv : validate_priority p with
      | error e => simp [update_task, hf, hv] at h
      | ok v =>
        cases due_date with
        | none =>
          simp only [update_task, hf, hv, Except.ok.injEq, Prod.mk.injEq] at h
          obtain ⟨h1, h2⟩ := h
          subst h1
          subst h2
          exact ⟨t₀, some v, none, rfl, fun hh => Option.noConfusion hh,
            fun _ => rfl, rfl, rfl⟩
        | some d =>
          cases hd : normalise_due_date (some d) with
          | error e => simp [update_task, hf, hv, hd] at h
          | ok due' =>
            simp only [update_task, hf, hv, hd, Except.ok.injEq,
              Prod.mk.injEq] at h
            obtain ⟨h1, h2⟩ := h
            subst h1
            subst h2
            exact ⟨t₀, some v, due', rfl, fun hh => Option.noConfusion hh,
              fun hh => Option.noConfusion hh, rfl, rfl⟩

theorem update_task_map_id {tasks : List Task} {task_id : Int}
    {title description : Option String} {due_date : Option String}
    {priority : Option String} {completed : Option Bool} {now : String}
    {t' : Task} {s' : List Task}
    (h : update_task tasks task_id title description due_date priority
      completed now = Except.ok (t', s')) :
    s'.map Task.id = tasks.map Task.id := by
  obtain ⟨t₀, priority', due', hf, _, _, ht', hs⟩ := update_task_ok h
  subst hs
  apply replace_first_map_id
  rw [ht']
  show t₀.id = task_id
  exact find_task_ok_id hf

theorem delete_task_ok {tasks : List Task} {task_id : Int} {s' : List Task}
    (h : delete_task tasks task_id = Except.ok s') :
    s' = remove_first tasks task_id := by
  cases hf : find_task task_id tasks with
  | error e => simp [delete_task, hf] at h
  | ok t =>
    simp only [delete_task, hf, Except.ok.injEq] at h
    exact h.symm

/-! ### The sort key is a total preorder -/

theorem char_toNat_inj {a b : Char} (h : a.toNat = b.toNat) : a = b :=
  Char.ext (UInt32.ext h)

theorem charListLt_trans {a b c : List Char} (h1 : charListLt a b = true)
    (h2 : charListLt b c = true) : charListLt a c = true := by
  induction a generalizing b c with
  | nil =>
    cases c with
    | nil => cases b <;> simp [charListLt] at h1 h2
    | cons z zs => simp [charListLt]
  | cons x xs ih =>
    cases b with
    | nil => simp [charListLt] at h1
    | cons y ys =>
      cases c with
      | nil => simp [charListLt] at h2
      | cons z zs =>
        simp only [charListLt, Bool.or_eq_true, Bool.and_eq_true,
          decide_eq_true_eq, beq_iff_eq] at h1 h2 ⊢
        rcases h1 with h1 | ⟨hxy, h1⟩
        · rcases h2 with h2 | ⟨hyz, h2⟩
          · exact Or.inl (Nat.lt_trans h1 h2)
          · subst hyz
            exact Or.inl h1
        · subst hxy
          rcases h2 with h2 | ⟨hyz, h2⟩
          · exact Or.inl h2
          · subst hyz
            exact Or.inr ⟨rfl, ih h1 h2⟩

theorem charListLt_connex : ∀ (a b : List Char),
    charListLt a b = true ∨ a = b ∨ charListLt b a = true := by
  intro a
  induction a with
  | nil =>
    intro b
    cases b with
    | nil => exact Or.inr (Or.inl rfl)
    | cons y ys => exact Or.inl (by simp [charListLt])
  | cons x xs ih =>
    intro b
    cases b with
    | nil => exact Or.inr (Or.inr (by simp [charListLt]))
    | cons y ys =>
      rcases Nat.lt_trichotomy x.toNat y.toNat with hlt | heq | hgt
      · refine Or.inl ?_
        simp only [charListLt, Bool.or_eq_true, decide_eq_true_eq]
        exact Or.inl hlt
      · have hxy : x = y := char_toNat_inj heq
        subst hxy
        rcases ih ys with h | h | h
        · exact Or.inl (by simp [charListLt, h])
        · subst h
          exact Or.inr (Or.inl rfl)
        · exact Or.inr (Or.inr (by simp [charListLt, h]))
      · refine Or.inr (Or.inr ?_)
        simp only [charListLt, Bool.or_eq_true, decide_eq_true_eq]
        exact Or.inl hgt

theorem charListLt_irrefl (a : List Char) : charListLt a a = false := by
  induction a with
  | nil => rfl
  | cons x xs ih => simp [charListLt, ih]

theorem strLt_irrefl (s : String) : strLt s s = false :=
  charListLt_irrefl s.data

theorem strLt_trans {s t u : String} (h1 : strLt s t = true)
    (h2 : strLt t u = true) : strLt s u = true :=
  charListLt_trans h1 h2

theorem strLt_connex (s t : String) :
    strLt s t = true ∨ s = t ∨ strLt t s = true := by
  rcases charListLt_connex s.data t.data with h | h | h
  · exact Or.inl h
  · refine Or.inr (Or.inl ?_)
    cases s
    cases t
    simp only at h
    rw [h]
  · exact Or.inr (Or.inr h)

theorem keyLE_trans (a b c : Task) (h1 : keyLE a b = true)
    (h2 : keyLE b c = true) : keyLE a c = true := by
  simp only [keyLE, Bool.or_eq_true, Bool.and_eq_true, Bool.not_eq_true',
    decide_eq_true_eq, beq_iff_eq] at h1 h2 ⊢
  rcases h1 with ⟨ha, hb⟩ | ⟨hab, h1⟩
  · rcases h2 with ⟨hb2, _⟩ | ⟨hbc, _⟩
    · rw [hb] at hb2
      exact absurd hb2 (by simp)
    · exact Or.inl ⟨ha, hbc ▸ hb⟩
  · rcases h2 with ⟨hb2, hc⟩ | ⟨hbc, h2⟩
    · exact Or.inl ⟨hab.trans hb2, hc⟩
    · refine Or.inr ⟨hab.trans hbc, ?_⟩
      rcases h1 with h1 | ⟨hd1, hi1⟩
      · rcases h2 with h2 | ⟨hd2, _⟩
        · exact Or.inl (strLt_trans h1 h2)
        · exact Or.inl (hd2 ▸ h1)
      · rcases h2 with h2 | ⟨hd2, hi2⟩
        · exact Or.inl (hd1 ▸ h2)
        · exact Or.inr ⟨hd1.trans hd2, le_trans hi1 hi2⟩

theorem keyLE_total (a b : Task) : (keyLE a b || keyLE b a) = true := by
  simp only [keyLE, Bool.or_eq_true, Bool.and_eq_true, Bool.not_eq_true',
    decide_eq_true_eq, beq_iff_eq]
  cases ha : a.completed <;> cases hb : b.completed
  · rcases strLt_connex (dueKey a) (dueKey b) with h | h | h
    · exact Or.inl (Or.inr ⟨rfl, Or.inl h⟩)
    · rcases Int.le_total a.id b.id with hle | hle
      · exact Or.inl (Or.inr ⟨rfl, Or.inr ⟨h, hle⟩⟩)
      · exact Or.inr (Or.inr ⟨rfl, Or.inr ⟨h.symm, hle⟩⟩)
    · exact Or.inr (Or.inr ⟨rfl, Or.inl h⟩)
  · exact Or.inl (Or.inl ⟨rfl, rfl⟩)
  · exact Or.inr (Or.inl ⟨rfl, rfl⟩)
  · rcases strLt_connex (dueKey a) (dueKey b) with h | h | h
    · exact Or.inl (Or.inr ⟨rfl, Or.inl h⟩)
    · rcases Int.le_total a.id b.id with hle | hle
      · exact Or.inl (Or.inr ⟨rfl, Or.inr ⟨h, hle⟩⟩)
      · exact Or.inr (Or.inr ⟨rfl, Or.inr ⟨h.symm, hle⟩⟩)
    · exact Or.inr (Or.inr ⟨rfl, Or.inl h⟩)

/-! ### Id uniqueness along reachable stores -/

theorem reach_nodup {s : List Task} (h : Reach s) : (s.map Task.id).Nodup := by
  induction h with
  | empty => simp
  | add hr hadd ih =>
    obtain ⟨hid, hs⟩ := add_task_ok hadd
    subst hs
    rw [List.map_append, List.nodup_append]
    refine ⟨ih, List.nodup_singleton _, ?_⟩
    intro a ha hb
    simp only [List.map_cons, List.map_nil, List.mem_singleton] at hb
    subst hb
    have h1 := mem_le_pythonMax 0 ha
    rw [hid] at ha
    have h2 := mem_le_pythonMax 0 ha
    omega
  | update hr hup ih =>
    rw [update_task_map_id hup]
    exact ih
  | complete hr hcomp ih =>
    rw [update_task_map_id hcomp]
    exact ih
  | delete hr hdel ih =>
    rw [delete_task_ok hdel]
    exact List.Nodup.sublist
      (List.Sublist.map Task.id (remove_first_sublist _ _)) ih

/-! ### Ids `1..N` when adding to an empty store -/

theorem pythonMax_append_singleton (l : List Int) (x d : Int) (hl : l ≠ []) :
    pythonMax (l ++ [x]) d = max (pythonMax l d) x := by
  cases l with
  | nil => exact absurd rfl hl
  | cons y ys =>
    show (ys ++ [x]).foldl max y = max (ys.foldl max y) x
    rw [List.foldl_append]
    rfl

theorem pythonMax_range (n : Nat) :
    pythonMax ((List.range' 1 n).map Int.ofNat) 0 = Int.ofNat n := by
  induction n with
  | zero => rfl
  | succ n ih =>
    rw [List.range'_concat, List.map_append]
    cases n with
    | zero => rfl
    | succ m =>
      have hne : (List.range' 1 (m + 1)).map Int.ofNat ≠ [] := by
        simp [List.range']
      simp only [List.map_cons, List.map_nil]
      rw [pythonMax_append_singleton _ _ _ hne, ih]
      simp only [Int.ofNat_eq_natCast]
      rw [max_eq_right (by push_cast; omega)]
      push_cast
      omega

theorem addN_succ (n : Nat) :
    addN (n + 1) = addN n
      ++ [⟨pythonMax ((addN n).map Task.id) 0 + 1, "task", "", none,
           "normal", false, "ts", "ts"⟩] := rfl

theorem addN_ids (n : Nat) :
    (addN n).map Task.id = (List.range' 1 n).map Int.ofNat := by
  induction n with
  | zero => rfl
  | succ n ih =>
    rw [addN_succ, List.map_append, ih, List.range'_concat, List.map_append]
    simp only [List.map_cons, List.map_nil, pythonMax_range,
      List.append_cancel_left_eq, List.cons.injEq, and_true,
      Int.ofNat_eq_natCast]
    push_cast
    omega

/-! ### Claims -/

/-- Claim C1: the spec says `update(id, due_date="")` clears the stored due
date while an omitted `due_date` leaves it untouched. The code disagrees on
the first half: `update_task` first normalises `""` to `None` and
`apply_updates` then treats that `None` as "not supplied", so the stored
due date survives. This theorem evaluates the code at the failing input:
updating a task whose `due_date` is `2024-01-01` with `due_date = ""`
leaves `due_date` equal to `some "2024-01-01"` (first conjunct), exactly as
the omitted-`due_date` call does (second conjunct). -/
theorem c1_update_empty_string_does_not_clear_due_date :
    update_task [⟨1, "a", "", some "2024-01-01", "normal", false, "t0", "t0"⟩]
      1 none none (some "") none none "t1"
    = Except.ok (⟨1, "a", "", some "2024-01-01", "normal", false, "t0", "t1"⟩,
        [⟨1, "a", "", some "2024-01-01", "normal", false, "t0", "t1"⟩])
    ∧ update_task
        [⟨1, "a", "", some "2024-01-01", "normal", false, "t0", "t0"⟩]
        1 none none none none none "t1"
    = Except.ok (⟨1, "a", "", some "2024-01-01", "normal", false, "t0", "t1"⟩,
        [⟨1, "a", "", some "2024-01-01", "normal", false, "t0", "t1"⟩]) :=
  ⟨rfl, rfl⟩

/-- Claim C2: the spec says `add` with an empty/blank title fails with an
invalid-argument error, but `add_task` performs no title validation at all:
adding with the empty title to the empty store succeeds and saves a task
with an empty title. -/
theorem c2_add_accepts_empty_title :
    add_task [] "" "" none "normal" "t0"
    = Except.ok (⟨1, "", "", none, "normal", false, "t0", "t0"⟩,
        [⟨1, "", "", none, "normal", false, "t0", "t0"⟩]) := rfl

/-- Claim C3: `save` followed by `load` reproduces every task with every
field exactly equal, in the same order, for any collection (including
absent due dates and empty descriptions, which round-trip like every other
field value). -/
theorem c3_save_load_round_trip (tasks : List Task) (now : String) :
    load_tasks (save_tasks tasks) now = tasks := by
  induction tasks with
  | nil => rfl
  | cons t ts ih =>
    show Task.from_dict (Task.to_dict t) now
        :: load_tasks (save_tasks ts) now = t :: ts
    rw [ih]
    rfl

/-- Claim C4: `add_task` assigns `max(existing ids, default 0) + 1` (so 1
on an empty store); adding `N` tasks to an empty store yields ids `1..N`
in order; and every store reachable from the empty store by
add/update/complete/delete has pairwise-distinct ids. -/
theorem c4_id_assignment_monotone_and_unique :
    (∀ (tasks : List Task) (title description : String)
        (due_date : Option String) (priority now : String) (t : Task)
        (s' : List Task),
      add_task tasks title description due_date priority now
          = Except.ok (t, s') →
        t.id = pythonMax (tasks.map Task.id) 0 + 1)
    ∧ (∀ n : Nat, (addN n).map Task.id = (List.range' 1 n).map Int.ofNat)
    ∧ (∀ s : List Task, Reach s → (s.map Task.id).Nodup) := by
  refine ⟨?_, addN_ids, fun s h => reach_nodup h⟩
  intro tasks title description due_date priority now t s' h
  exact (add_task_ok h).1

/-- Witness for C4 at concrete inputs: one `add_task` on the empty store,
three adds yielding ids `[1, 2, 3]`, and a concrete reachable store. -/
theorem c4_witness :
    (Task.mk 1 "x" "" none "normal" false "t0" "t0").id
      = pythonMax (([] : List Task).map Task.id) 0 + 1
    ∧ (addN 3).map Task.id = (List.range' 1 3).map Int.ofNat
    ∧ (([⟨1, "x", "", none, "normal", false, "t0", "t0"⟩] : List Task).map
        Task.id).Nodup := by
  have h : add_task [] "x" "" none "normal" "t0"
      = Except.ok ((⟨1, "x", "", none, "normal", false, "t0", "t0"⟩ : Task),
          ([⟨1, "x", "", none, "normal", false, "t0", "t0"⟩] :
            List Task)) := rfl
  exact ⟨c4_id_assignment_monotone_and_unique.1 [] "x" "" none "normal" "t0"
      _ _ h,
    c4_id_assignment_monotone_and_unique.2.1 3,
    c4_id_assignment_monotone_and_unique.2.2 _ (Reach.add Reach.empty h)⟩

/-- Claim C5: `list_tasks` returns the filtered tasks in an order that is
sorted by the composite key (completed ascending, due date ascending with
the `9999-12-31` sentinel for an absent due date, id ascending); in
particular any two listed tasks with identical completion state and due
date appear in ascending id order. -/
theorem c5_list_sorted_by_composite_key (tasks : List Task)
    (status : Option String) :
    (list_tasks tasks status).Perm (filter_status tasks status)
    ∧ (list_tasks tasks status).Pairwise (fun a b => keyLE a b = true)
    ∧ (list_tasks tasks status).Pairwise
        (fun a b => a.completed = b.completed → a.due_date = b.due_date →
          a.id ≤ b.id) := by
  have hs := @List.sorted_mergeSort Task keyLE keyLE_trans keyLE_total
    (filter_status tasks status)
  refine ⟨List.mergeSort_perm _ keyLE, hs, hs.imp ?_⟩
  intro a b hab hc hd
  simp only [keyLE, Bool.or_eq_true, Bool.and_eq_true, Bool.not_eq_true',
    decide_eq_true_eq, beq_iff_eq] at hab
  have hdk : dueKey a = dueKey b := by
    simp only [dueKey, hd]
  rcases hab with ⟨ha, hb⟩ | ⟨_, hab⟩
  · rw [hc, hb] at ha
    exact absurd ha (by simp)
  · rcases hab with hlt | ⟨_, hle⟩
    · rw [hdk, strLt_irrefl] at hlt
      exact absurd hlt (by simp)
    · exact hle

/-- Witness for C5 at a concrete input. -/
theorem c5_witness :
    (list_tasks [⟨1, "a", "", none, "normal", false, "t0", "t0"⟩] none).Pairwise
      (fun a b => a.completed = b.completed → a.due_date = b.due_date →
        a.id ≤ b.id) :=
  (c5_list_sorted_by_composite_key
    [⟨1, "a", "", none, "normal", false, "t0", "t0"⟩] none).2.2

/-- Claim C6: `list_tasks` with status `"pending"` returns exactly the
incomplete tasks, with `"completed"` exactly the complete ones, with no
status all tasks; and a list operation leaves the durable store unchanged
(it never saves). -/
theorem c6_filter_correctness (tasks : List Task) :
    (list_tasks tasks (some "pending")).Perm
        (tasks.filter (fun t => !t.completed))
    ∧ (list_tasks tasks (some "completed")).Perm
        (tasks.filter (fun t => t.completed))
    ∧ (list_tasks tasks none).Perm tasks
    ∧ (∀ status : Option String, (run_list tasks status).1 = tasks) :=
  ⟨List.mergeSort_perm _ keyLE, List.mergeSort_perm _ keyLE,
   List.mergeSort_perm _ keyLE, fun _ => rfl⟩

/-- Claim C7, counterexample to the claim as stated: it promises that
every priority outside `{low, normal, high}` makes `add` fail with the
invalid-argument error naming the allowed values, but `add_task` checks
the due date first, so with `priority = "urgent"` and the unparseable
`due_date = "2024/12/01"` the add fails with the due-date error, which
does not name the allowed values. -/
theorem c7_counterexample :
    "urgent" ∉ PRIORITY_LEVELS
    ∧ run_add [] "x" "" (some "2024/12/01") "urgent" "t0"
      = ([], Except.error TaskError.invalidDueDate)
    ∧ TaskError.invalidDueDate ≠ TaskError.invalidPriority PRIORITY_LEVELS :=
  ⟨by decide, rfl, by decide⟩

/-- Claim C7 as amended: a priority outside `{low, normal, high}` makes
`update_task` on an existing id fail with the invalid-argument error that
carries the allowed values, and makes `add_task` fail the same way
provided the supplied due date itself normalises (absent, empty, or a
valid `%Y-%m-%d` date) — when the due date is itself invalid, add fails
with the due-date error instead, because `add_task` normalises the due
date before validating the priority. In either case the durable store is
unchanged (no save happens). -/
theorem c7_invalid_priority_rejected (tasks : List Task)
    (title description : String) (due_date : Option String) (p now : String)
    (task_id : Int) (ut_title ut_description : Option String)
    (ut_due : Option String) (completed : Option Bool) (t₀ : Task)
    (hp : p ∉ PRIORITY_LEVELS)
    (hf : find_task task_id tasks = Except.ok t₀)
    (due_ok : ∃ d, normalise_due_date due_date = Except.ok d) :
    run_add tasks title description due_date p now
      = (tasks, Except.error (TaskError.invalidPriority PRIORITY_LEVELS))
    ∧ run_update tasks task_id ut_title ut_description ut_due (some p)
        completed now
      = (tasks, Except.error (TaskError.invalidPriority PRIORITY_LEVELS)) := by
  have hval : validate_priority p
      = Except.error (TaskError.invalidPriority PRIORITY_LEVELS) := by
    simp [validate_priority, hp]
  constructor
  · obtain ⟨d, hd⟩ := due_ok
    simp [run_add, add_task, hd, hval]
  · simp [run_update, update_task, hf, hval]

/-- Witness for C7: priority `"urgent"` rejected on a concrete store. -/
theorem c7_witness :
    run_add [⟨1, "a", "", none, "normal", false, "t0", "t0"⟩] "x" "" none
        "urgent" "t1"
      = ([⟨1, "a", "", none, "normal", false, "t0", "t0"⟩],
         Except.error (TaskError.invalidPriority PRIORITY_LEVELS))
    ∧ run_update [⟨1, "a", "", none, "normal", false, "t0", "t0"⟩] 1 none
        none none (some "urgent") none "t1"
      = ([⟨1, "a", "", none, "normal", false, "t0", "t0"⟩],
         Except.error (TaskError.invalidPriority PRIORITY_LEVELS)) :=
  c7_invalid_priority_rejected
    [⟨1, "a", "", none, "normal", false, "t0", "t0"⟩] "x" "" none "urgent"
    "t1" 1 none none none none
    ⟨1, "a", "", none, "normal", false, "t0", "t0"⟩
    (by decide) rfl ⟨none, rfl⟩

/-- Claim C8: a successful `update_task` applies only the supplied fields:
every omitted field keeps its previous value, `id` and `created_at` are
never changed, and `updated_at` is refreshed to the operation timestamp. -/
theorem c8_partial_update_preserves_omitted_fields (tasks : List Task)
    (task_id : Int) (title description : Option String)
    (due_date : Option String) (priority : Option String)
    (completed : Option Bool) (now : String) (t₀ t' : Task) (s' : List Task)
    (hf : find_task task_id tasks = Except.ok t₀)
    (h : update_task tasks task_id title description due_date priority
      completed now = Except.ok (t', s')) :
    t'.id = t₀.id ∧ t'.created_at = t₀.created_at ∧ t'.updated_at = now
    ∧ (title = none → t'.title = t₀.title)
    ∧ (description = none → t'.description = t₀.description)
    ∧ (due_date = none → t'.due_date = t₀.due_date)
    ∧ (priority = none → t'.priority = t₀.priority)
    ∧ (completed = none → t'.completed = t₀.completed) := by
  obtain ⟨t₁, priority', due', hf1, hpn, hdn, ht', hs⟩ := update_task_ok h
  rw [hf] at hf1
  injection hf1 with ht₁
  subst ht₁
  subst ht'
  refine ⟨rfl, rfl, rfl, ?_, ?_, ?_, ?_, ?_⟩
  · intro hh
    subst hh
    rfl
  · intro hh
    subst hh
    rfl
  · intro hh
    simp [Task.apply_updates, hdn hh]
  · intro hh
    simp [Task.apply_updates, hpn hh]
  · intro hh
    subst hh
    rfl

/-- Witness for C8: an update supplying nothing refreshes `updated_at` and
keeps the description. -/
theorem c8_witness :
    (Task.mk 1 "a" "d" none "low" false "t0" "t1").updated_at = "t1"
    ∧ (Task.mk 1 "a" "d" none "low" false "t0" "t1").description
      = (Task.mk 1 "a" "d" none "low" false "t0" "t0").description := by
  have h := c8_partial_update_preserves_omitted_fields
    [⟨1, "a", "d", none, "low", false, "t0", "t0"⟩] 1 none none none none
    none "t1" ⟨1, "a", "d", none, "low", false, "t0", "t0"⟩
    ⟨1, "a", "d", none, "low", false, "t0", "t1"⟩
    [⟨1, "a", "d", none, "low", false, "t0", "t1"⟩] rfl rfl
  exact ⟨h.2.2.1, h.2.2.2.2.1 rfl⟩

/-- Claim C9: when no task has the requested id, `update_task`,
`complete_task` and `delete_task` fail with the not-found error naming the
id and the durable store is unchanged; when a task with the id is present,
`delete_task` removes exactly the (first) task with that id and saves the
remaining collection. -/
theorem c9_not_found_and_delete_removes (tasks : List Task) (task_id : Int)
    (title description : Option String) (due_date : Option String)
    (priority : Option String) (completed : Option Bool) (cflag : Bool)
    (now : String) :
    ((∀ t ∈ tasks, t.id ≠ task_id) →
      run_update tasks task_id title description due_date priority completed
          now
        = (tasks, Except.error (TaskError.notFound task_id))
      ∧ run_complete tasks task_id cflag now
        = (tasks, Except.error (TaskError.notFound task_id))
      ∧ run_delete tasks task_id
        = (tasks, Except.error (TaskError.notFound task_id)))
    ∧ ((∃ t ∈ tasks, t.id = task_id) →
      ∃ l t r, tasks = l ++ t :: r ∧ t.id = task_id
        ∧ (∀ u ∈ l, u.id ≠ task_id)
        ∧ delete_task tasks task_id = Except.ok (l ++ r)) := by
  constructor
  · intro habsent
    have hfind := find_task_not_found habsent
    refine ⟨?_, ?_, ?_⟩
    · simp [run_update, update_task, hfind]
    · simp [run_complete, complete_task, update_task, hfind]
    · simp [run_delete, delete_task, hfind]
  · intro hpresent
    obtain ⟨t₀, hf⟩ := find_task_of_mem hpresent
    obtain ⟨l, t, r, h1, h2, h3, h4⟩ := remove_first_decomp hpresent
    refine ⟨l, t, r, h1, h2, h3, ?_⟩
    simp [delete_task, hf, h4]

/-- Witness for C9: delete of an unknown id leaves a concrete store
unchanged, and delete of a present id removes that task. -/
theorem c9_witness :
    run_delete [⟨1, "a", "", none, "normal", false, "t0", "t0"⟩] 5
      = ([⟨1, "a", "", none, "normal", false, "t0", "t0"⟩],
         Except.error (TaskError.notFound 5))
    ∧ ∃ l t r,
        ([⟨1, "a", "", none, "normal", false, "t0", "t0"⟩] : List Task)
          = l ++ t :: r
        ∧ t.id = 1 ∧ (∀ u ∈ l, u.id ≠ 1)
        ∧ delete_task [⟨1, "a", "", none, "normal", false, "t0", "t0"⟩] 1
          = Except.ok (l ++ r) :=
  ⟨((c9_not_found_and_delete_removes
      [⟨1, "a", "", none, "normal", false, "t0", "t0"⟩] 5 none none none
      none none true "t1").1 (by decide)).2.2,
   (c9_not_found_and_delete_removes
      [⟨1, "a", "", none, "normal", false, "t0", "t0"⟩] 1 none none none
      none none true "t1").2 (by decide)⟩

/-- Claim C10: any status other than `"pending"` and `"completed"`
(including an arbitrary unrecognised string) applies no filter: the listing
equals the status-omitted one. -/
theorem c10_unknown_status_lists_all (tasks : List Task)
    (status : Option String) (h1 : status ≠ some "pending")
    (h2 : status ≠ some "completed") :
    list_tasks tasks status = list_tasks tasks none := by
  unfold list_tasks filter_status
  rw [if_neg h1, if_neg h2]
  rfl

/-- Witness for C10 at status `"all"`. -/
theorem c10_witness :
    list_tasks [⟨1, "a", "", none, "normal", true, "t0", "t0"⟩] (some "all")
      = list_tasks [⟨1, "a", "", none, "normal", true, "t0", "t0"⟩] none :=
  c10_unknown_status_lists_all
    [⟨1, "a", "", none, "normal", true, "t0", "t0"⟩] (some "all")
    (by decide) (by decide)

end TaskManager
